import Mathlib

/-!
Search interaction controller of `frontend/main.js`.

A shallow embedding of the search part of the browser client
(`doSearch`, its three triggers, `renderResults`, `showToast`, `setLoading`)
as explicit state passing over a small model of the page.

* Module-level variables (`searchAbort`, `searchTimer`) and the DOM nodes the
  code writes to (`#results`, `#resultsEmpty`, `#spinner`, `#toast`, `#query`)
  are fields of `State`.
* The platform primitives the code calls (`setTimeout`/`clearTimeout`,
  `AbortController`, `fetch`, `Response.json`) are modelled by a timer queue, a
  set of aborted controllers and a list of pending requests.
* The HTML parser behind `innerHTML` and `querySelector` is not modelled: the
  one answer `card` needs from it is the field `State.findsFav`, and the
  theorems hold for every value of that field.
* An `async` function is split at its suspension point: `doSearch` is the
  synchronous prefix up to `await fetch(...)`, `resume` is the continuation
  (the rest of `try`, then `catch`, then `finally`).
* `State.trace` records, in program order, every call the code makes to a
  collaborator; it only observes, nothing reads it.
-/

namespace MovieApp

/-! ## Strings -/

/-- White space and line terminators removed by `String.prototype.trim`. -/
def isJsWhiteSpace (c : Char) : Bool :=
  let n := c.toNat
  n == 0x09 || n == 0x0A || n == 0x0B || n == 0x0C || n == 0x0D || n == 0x20 ||
  n == 0xA0 || n == 0x1680 || (0x2000 ≤ n && n ≤ 0x200A) || n == 0x2028 ||
  n == 0x2029 || n == 0x202F || n == 0x205F || n == 0x3000 || n == 0xFEFF

/-- Strip leading white space. -/
def trimStart (cs : List Char) : List Char := cs.dropWhile isJsWhiteSpace

/-- The method `String.prototype.trim`. -/
def jsTrim (s : String) : String :=
  ⟨(trimStart (trimStart s.data).reverse).reverse⟩

/-- Number of UTF-16 code units of one code point. -/
def utf16Units (c : Char) : Nat := if c.toNat < 0x10000 then 1 else 2

/-- The property `String.prototype.length`: the number of UTF-16 code units. -/
def jsLength (s : String) : Nat := (s.data.map utf16Units).sum

/-! ## Data -/

/-- A movie summary as the service returns it: `id`, `title`, optional `poster_path`. -/
structure Movie where
  id : Nat
  title : String
  poster_path : Option String
  deriving DecidableEq, Repr

/-- The node built by `card(movie)`: a `div` of class `card` with the markup
assigned to its `innerHTML` and the movie its "add to favourites" listener is
bound to. -/
structure Card where
  markup : String
  favTarget : Movie
  deriving DecidableEq, Repr

/-- A thrown JavaScript error; the handler in `doSearch` looks at `name` only. -/
structure JsError where
  name : String
  deriving DecidableEq, Repr

/-- The decoded JSON object of a search response, `{ results?: Movie[] }`. -/
structure Payload where
  results : Option (List Movie)
  deriving DecidableEq, Repr

/-- What `res.json()` does with the body of a response. -/
inductive Body where
  /-- the body decodes to an object -/
  | json (data : Payload)
  /-- decoding rejects (for malformed JSON, with a `SyntaxError`) -/
  | invalid (e : JsError)
  deriving DecidableEq, Repr

/-- What the network does with a request that is not cancelled. -/
inductive NetOutcome where
  /-- the `fetch` promise rejects (a network failure rejects with a `TypeError`) -/
  | rejected (e : JsError)
  /-- the `fetch` promise resolves with a response of the given HTTP status -/
  | response (status : Nat) (body : Body)
  deriving DecidableEq, Repr

/-- Calls made by the search code, in program order. -/
inductive Effect where
  /-- `doSearch(q)` entered at time `t` -/
  | call (t : Nat) (q : String)
  /-- `searchAbort.abort()` on controller `ctl` -/
  | abort (ctl : Nat)
  /-- `fetch` of `/search?q=<q>&_=<stamp>` with the signal of controller `ctl` -/
  | fetch (ctl : Nat) (q : String) (stamp : Nat)
  /-- `renderResults(list)` -/
  | render (list : List Movie)
  /-- `showToast(msg)` -/
  | toast (msg : String)
  /-- `setLoading(flag)` -/
  | loading (flag : Bool)
  deriving DecidableEq, Repr

/-- A `fetch` whose promise chain has not settled yet. -/
structure Request where
  ctl : Nat
  q : String
  stamp : Nat
  deriving DecidableEq, Repr

/-- The two callbacks the code hands to `setTimeout`. -/
inductive TimerAction where
  /-- `() => doSearch(queryInput.value.trim())` -/
  | search
  /-- `() => toastEl.classList.remove("show")` -/
  | hideToast
  deriving DecidableEq, Repr

/-- A pending timer. -/
structure Timer where
  id : Nat
  due : Nat
  action : TimerAction
  deriving DecidableEq, Repr

/-- The part of the page the search code paints. -/
structure View where
  /-- children of `#results` -/
  results : List Card
  /-- the node `#resultsEmpty`: `none` when the page has no such node, otherwise
  whether its display is `block` (`true`) or `none` (`false`) -/
  resultsEmpty : Option Bool
  /-- the node `#spinner`: display `inline-block` (`true`) or `none` (`false`) -/
  spinner : Bool
  toastText : String
  /-- whether `#toast` carries the class `show` -/
  toastShown : Bool
  deriving DecidableEq, Repr

/-- Program state together with the state of the platform objects it uses. -/
structure State where
  view : View
  /-- the property `queryInput.value` -/
  queryValue : String
  /-- the variable `searchAbort`: the controller it refers to, if any -/
  searchAbort : Option Nat
  /-- the variable `searchTimer`: the timer id it holds, if any -/
  searchTimer : Option Nat
  /-- the clock, in milliseconds -/
  now : Nat
  /-- identity of the next `AbortController` -/
  nextCtl : Nat
  /-- identity of the next timer -/
  nextTimer : Nat
  /-- controllers whose signal is aborted -/
  aborted : List Nat
  inflight : List Request
  timers : List Timer
  trace : List Effect
  /-- the HTML parser and selector engine of the document, as far as `card` uses
  them: whether the fragment parsed from a markup assigned to `innerHTML`
  contains an element matching `[data-action="fav"]` -/
  findsFav : String → Bool

/-! ## The code -/

/-- Append one call to the trace. -/
def emit (e : Effect) (s : State) : State :=
  { s with trace := s.trace ++ [e] }

/-- The call `setTimeout(action, delay)`: returns the id and the new state. -/
def setTimeout (action : TimerAction) (delay : Nat) (s : State) : Nat × State :=
  (s.nextTimer,
   { s with timers := s.timers ++ [⟨s.nextTimer, s.now + delay, action⟩],
            nextTimer := s.nextTimer + 1 })

/-- The call `clearTimeout(id)`; an id that is `null` or no longer pending does nothing. -/
def clearTimeout (id : Option Nat) (s : State) : State :=
  match id with
  | none => s
  | some i => { s with timers := s.timers.filter (fun t => t.id != i) }

/-- The function `showToast(msg)`. -/
def showToast (msg : String) (s : State) : State :=
  let s := emit (.toast msg) s
  let s := { s with view := { s.view with toastText := msg, toastShown := true } }
  (setTimeout .hideToast 1800 s).2

/-- The function `setLoading(flag)`. -/
def setLoading (flag : Bool) (s : State) : State :=
  let s := emit (.loading flag) s
  { s with view := { s.view with spinner := flag } }

/-- The template literal of `card(movie)`; `movie.poster_path || ''` is the
empty string for a missing or empty path. -/
def cardMarkup (m : Movie) : String :=
  "\n    <img class=\"poster\" src=\"https://image.tmdb.org/t/p/w342"
    ++ m.poster_path.getD ""
    ++ "\" onerror=\"this.style.display=\x27none\x27\" alt=\"Poster\"/>"
    ++ "\n    <div class=\"card-body\">"
    ++ "\n      <div class=\"title\">" ++ m.title ++ "</div>"
    ++ "\n      <div class=\"card-actions\">"
    ++ "\n        <button class=\"btn btn-primary\" data-action=\"fav\">⭐ Añadir</button>"
    ++ "\n      </div>"
    ++ "\n    </div>"

/-- The function `card(movie)`. The title and the poster path go into the markup
as they are, so they decide what the parser builds: when the parsed fragment has
no element matching `[data-action="fav"]`, `querySelector` returns `null` and
the call of `addEventListener` on it throws a `TypeError`. -/
def card (m : Movie) (s : State) : Except JsError Card :=
  -- div.innerHTML = `...`
  let markup := cardMarkup m
  -- div.querySelector(...).addEventListener("click", () => addFav(movie))
  if s.findsFav markup then .ok { markup := markup, favTarget := m }
  else .error ⟨"TypeError"⟩

/-- The loop `for (const m of list) resultsEl.appendChild(card(m))`: the state
it ends in and the error it ends with, if a `card` throws. The cards appended
before the throw stay. -/
def appendCards : List Movie → State → State × Option JsError
  | [], s => (s, none)
  | m :: ms, s =>
    match card m s with
    | .error e => (s, some e)
    | .ok c =>
      appendCards ms { s with view := { s.view with results := s.view.results ++ [c] } }

/-- The function `renderResults(list)`: the state it ends in and the error it
throws, if any. -/
def renderResults (list : List Movie) (s : State) : State × Option JsError :=
  let s := emit (.render list) s
  -- resultsEl.innerHTML = ""
  let s := { s with view := { s.view with results := [] } }
  if list.length = 0 then
    ({ s with view := { s.view with resultsEmpty := s.view.resultsEmpty.map fun _ => true } },
     none)
  else
    let s := { s with view := { s.view with resultsEmpty := s.view.resultsEmpty.map fun _ => false } }
    appendCards list s

/-- The method `AbortController.abort()`: the signal of the controller becomes aborted. -/
def abort (ctl : Nat) (s : State) : State :=
  let s := emit (.abort ctl) s
  { s with aborted := ctl :: s.aborted }

/-- The function `doSearch(q)` up to its first suspension at `await fetch(...)`. -/
def doSearch (q : String) (s : State) : State :=
  let s := emit (.call s.now q) s
  if jsLength q < 2 then
    -- renderResults([]) builds no card and returns
    (renderResults [] s).1
  else
    -- if (searchAbort) searchAbort.abort()
    let s := match s.searchAbort with
      | some c => abort c s
      | none => s
    -- searchAbort = new AbortController()
    let c := s.nextCtl
    let s := { s with searchAbort := some c, nextCtl := s.nextCtl + 1 }
    let s := setLoading true s
    let s := emit (.fetch c q s.now) s
    { s with inflight := s.inflight ++ [⟨c, q, s.now⟩] }

/-- What `await fetch(url, { signal })` followed by `await res.json()` yields:
a signal that is aborted rejects with an `AbortError`, whatever the network did;
otherwise the network outcome decides. The HTTP status plays no part. -/
def awaitFetchJson (signalAborted : Bool) (o : NetOutcome) : Except JsError Payload :=
  if signalAborted then .error ⟨"AbortError"⟩
  else match o with
    | .rejected e => .error e
    | .response _ (.invalid e) => .error e
    | .response _ (.json data) => .ok data

/-- The rest of the `try` block of `doSearch` once the request of controller
`ctl` settles with `o`: the two awaits, then `renderResults(data.results || [])`.
The result is the state the block ends in and the error it throws, if any. -/
def tryBlock (ctl : Nat) (o : NetOutcome) (s : State) : State × Option JsError :=
  match awaitFetchJson (s.aborted.contains ctl) o with
  | .error e => (s, some e)
  | .ok data => renderResults (data.results.getD []) s

/-- The `catch` handler of `doSearch`. -/
def catchBlock (e : JsError) (s : State) : State :=
  if e.name != "AbortError" then showToast "Error buscando películas" s else s

/-- The `try` block followed, when it throws, by the `catch` handler. -/
def tryCatch (ctl : Nat) (o : NetOutcome) (s : State) : State :=
  match tryBlock ctl o s with
  | (s1, none) => s1
  | (s1, some e) => catchBlock e s1

/-- The rest of `doSearch` once the request of controller `ctl` settles with `o`:
the remainder of `try`, the `catch` handler, then the `finally` block. The
result is the completion of the promise `doSearch` returned. -/
def resume (ctl : Nat) (o : NetOutcome) (s : State) : Except JsError State :=
  let s := tryCatch ctl o s
  .ok (setLoading false s)

/-- The request of controller `ctl` settles with network outcome `o` and the
suspended `doSearch` runs on; `none` when no such request is pending. -/
def settle (ctl : Nat) (o : NetOutcome) (s : State) : Option (Except JsError State) :=
  if s.inflight.any (fun r => r.ctl == ctl) then
    some (resume ctl o { s with inflight := s.inflight.filter (fun r => r.ctl != ctl) })
  else none

/-- Listener of `click` on `#btnSearch`. -/
def onClick (s : State) : State :=
  doSearch (jsTrim s.queryValue) s

/-- Listener of `input` on `#query`, after the field took the value `v`. -/
def onInput (v : String) (s : State) : State :=
  let s := { s with queryValue := v }
  let s := clearTimeout s.searchTimer s
  let (id, s) := setTimeout .search 350 s
  { s with searchTimer := some id }

/-- Listener of `keydown` on `#query`. -/
def onKeydown (key : String) (s : State) : State :=
  if key = "Enter" then
    let s := clearTimeout s.searchTimer s
    doSearch (jsTrim s.queryValue) s
  else s

/-- Run a timer callback. -/
def runTimer (a : TimerAction) (s : State) : State :=
  match a with
  | .search => doSearch (jsTrim s.queryValue) s
  | .hideToast => { s with view := { s.view with toastShown := false } }

/-- The pending timer that fires first among those due by `target`: the least
due time, the one registered first on a tie. -/
def nextDue (target : Nat) : List Timer → Option Timer
  | [] => none
  | t :: ts =>
    match nextDue target ts with
    | none => if t.due ≤ target then some t else none
    | some u => if t.due ≤ u.due then some t else some u

/-- Let the clock run to `target`, firing due timers in order. -/
def advanceTo (target : Nat) : Nat → State → State
  | 0, s => { s with now := max s.now target }
  | fuel + 1, s =>
    match nextDue target s.timers with
    | none => { s with now := max s.now target }
    | some t =>
      advanceTo target fuel
        (runTimer t.action
          { s with now := max s.now t.due,
                   timers := s.timers.filter (fun u => u.id != t.id) })

/-- Let `ms` milliseconds pass with no other event. No callback of this program
registers a timer, so one round per pending timer is enough. -/
def advance (ms : Nat) (s : State) : State :=
  advanceTo (s.now + ms) s.timers.length s

/-- A parser for the worked examples. It finds the button exactly in the markups
with no `<` and no `"` beyond the nine and the eighteen of the template of
`card`. Where it finds the button every HTML parser does: text without `<` and
a quoted attribute value without `"` cannot change the structure of the
fragment. The examples consult it on such markups and on the markup of the
title `<!--`, where every HTML parser loses the button: the comment is never
closed and swallows the rest of the markup. The general theorems do not mention
it; they hold for every parser. -/
def plainMarkup (markup : String) : Bool :=
  markup.data.count (Char.ofNat 60) == 9 && markup.data.count (Char.ofNat 34) == 18

/-- The page before the script runs, in a document with the given parser. -/
def blankWith (findsFav : String → Bool) : State :=
  { view := { results := [], resultsEmpty := some false, spinner := false,
              toastText := "", toastShown := false },
    queryValue := "", searchAbort := none, searchTimer := none, now := 0,
    nextCtl := 0, nextTimer := 0, aborted := [], inflight := [], timers := [],
    trace := [], findsFav := findsFav }

/-- The state once the script has run: it ends with `renderResults([])`. -/
def initWith (findsFav : String → Bool) : State := (renderResults [] (blankWith findsFav)).1

/-- The initial state of the worked examples. -/
def init : State := initWith plainMarkup

/-- A burst of `input` events: the first sets `v`, each later one comes `gap`
milliseconds after the one before and sets its value. -/
def burst (v : String) (rest : List (Nat × String)) (s : State) : State :=
  rest.foldl (fun s p => onInput p.2 (advance p.1 s)) (onInput v s)

/-- The value the field holds after a burst. -/
def lastValue (v : String) (rest : List (Nat × String)) : String :=
  (rest.getLast?.map Prod.snd).getD v

/-- The invocations of `doSearch` recorded in a trace, with their times. -/
def searchCalls : List Effect → List (Nat × String)
  | [] => []
  | .call t q :: es => (t, q) :: searchCalls es
  | _ :: es => searchCalls es

/-- The queries of the network calls recorded in a trace. -/
def fetchCalls : List Effect → List String
  | [] => []
  | .fetch _ q _ :: es => q :: fetchCalls es
  | _ :: es => fetchCalls es

/-- The number of calls of `renderResults` recorded in a trace. -/
def renderCount : List Effect → Nat
  | [] => 0
  | .render _ :: es => renderCount es + 1
  | _ :: es => renderCount es

/-- The notices recorded in a trace. -/
def toasts : List Effect → List String
  | [] => []
  | .toast m :: es => m :: toasts es
  | _ :: es => toasts es

/-! ## Predicates and example data used in the statements -/

/-- Timer bookkeeping that holds in every state the page can reach: timer ids
are distinct and below the counter, and a pending search timer is the one
`searchTimer` refers to. -/
def TimersOk (s : State) : Prop :=
  (s.timers.map Timer.id).Nodup ∧
  (∀ t ∈ s.timers, t.id < s.nextTimer) ∧
  (∀ t ∈ s.timers, t.action = .search → s.searchTimer = some t.id)

/-- The state of the debounce after an `input` event at time `T` that left the
value `v`: `searchTimer` refers to the only pending search timer, due at `T + 350`. -/
def Armed (T : Nat) (v : String) (s : State) : Prop :=
  (s.timers.map Timer.id).Nodup ∧
  (∀ t ∈ s.timers, t.id < s.nextTimer) ∧
  s.queryValue = v ∧
  ∃ i, s.searchTimer = some i ∧ (⟨i, T + 350, .search⟩ : Timer) ∈ s.timers ∧
    ∀ t ∈ s.timers, t.action = .search → t = ⟨i, T + 350, .search⟩

/-- Request bookkeeping that holds in every state the page can reach: the
controller in `searchAbort` is not aborted, and every controller the state
mentions is below the counter. -/
def CtlOk (s : State) : Prop :=
  (∀ c, s.searchAbort = some c → c < s.nextCtl ∧ c ∉ s.aborted) ∧
  (∀ c ∈ s.aborted, c < s.nextCtl) ∧
  (∀ r ∈ s.inflight, r.ctl < s.nextCtl)

/-- What can happen to the page. -/
inductive Event where
  /-- the field takes the value `v` and `input` is dispatched -/
  | input (v : String)
  /-- the Search button is clicked -/
  | click
  /-- a key goes down in the field -/
  | keydown (key : String)
  /-- `ms` milliseconds pass -/
  | wait (ms : Nat)
  /-- the request of controller `ctl` settles, the network having produced `o` -/
  | settled (ctl : Nat) (o : NetOutcome)
  deriving DecidableEq, Repr

/-- One event; the settlement of a request that is not pending does nothing. -/
def step (s : State) : Event → State
  | .input v => onInput v s
  | .click => onClick s
  | .keydown key => onKeydown key s
  | .wait ms => advance ms s
  | .settled ctl o =>
    match settle ctl o s with
    | some (.ok s1) => s1
    | _ => s

/-- A sequence of events. -/
def run (es : List Event) (s : State) : State := es.foldl step s

/-- A movie used in the examples. -/
def batman : Movie := { id := 1, title := "Batman", poster_path := none }

/-- A movie whose title opens an HTML comment. -/
def unclosed : Movie := { id := 2, title := "<!--", poster_path := none }

/-- A third movie for the examples. -/
def superman : Movie := { id := 3, title := "Superman", poster_path := none }

/-- The state after `doSearch("batman")` from the initial state has been
answered with one movie: `searchAbort` still refers to the settled request. -/
def settledOnce : State :=
  match settle 0 (.response 200 (.json ⟨some [batman]⟩)) (doSearch "batman" init) with
  | some (.ok s) => s
  | _ => init

/-! ## Closed forms -/

/-- The state `renderResults(list)` is in when its loop starts or, for the
empty list, when it returns. -/
theorem renderResults_nil (s : State) :
    renderResults [] s =
      ({ s with trace := s.trace ++ [.render []],
                view := { s.view with
                  results := [],
                  resultsEmpty := s.view.resultsEmpty.map fun _ => true } }, none) := by
  simp [renderResults, emit]

/-- When every card builds, the loop appends one card per movie, in order. -/
theorem appendCards_ok (list : List Movie) (s : State)
    (h : ∀ m ∈ list, s.findsFav (cardMarkup m) = true) :
    appendCards list s =
      ({ s with view := { s.view with
           results := s.view.results ++ list.map fun m => { markup := cardMarkup m, favTarget := m } } },
       none) := by
  induction list generalizing s with
  | nil => simp [appendCards]
  | cons m ms ih =>
    have hm : s.findsFav (cardMarkup m) = true := h m (by simp)
    simp only [appendCards, card, hm, if_true]
    rw [ih]
    · simp
    · intro x hx
      exact h x (by simp [hx])

/-- In two states with the same parser the loop appends the same cards and ends
the same way; it touches the result list only. -/
theorem appendCards_congr (list : List Movie) (s t : State) (hf : s.findsFav = t.findsFav) :
    ∃ cs e,
      appendCards list s
        = ({ s with view := { s.view with results := s.view.results ++ cs } }, e) ∧
      appendCards list t
        = ({ t with view := { t.view with results := t.view.results ++ cs } }, e) := by
  induction list generalizing s t with
  | nil => exact ⟨[], none, by simp [appendCards], by simp [appendCards]⟩
  | cons m ms ih =>
    by_cases hm : s.findsFav (cardMarkup m) = true
    · have hm2 : t.findsFav (cardMarkup m) = true := by rw [← hf]; exact hm
      obtain ⟨cs, e, h1, h2⟩ := ih
        { s with view := { s.view with
            results := s.view.results ++ [{ markup := cardMarkup m, favTarget := m }] } }
        { t with view := { t.view with
            results := t.view.results ++ [{ markup := cardMarkup m, favTarget := m }] } }
        hf
      refine ⟨{ markup := cardMarkup m, favTarget := m } :: cs, e, ?_, ?_⟩
      · simp only [appendCards, card, hm, if_true]
        rw [h1]; simp
      · simp only [appendCards, card, hm2, if_true]
        rw [h2]; simp
    · have hm2 : ¬ t.findsFav (cardMarkup m) = true := by rw [← hf]; exact hm
      exact ⟨[], some ⟨"TypeError"⟩, by simp [appendCards, card, hm],
        by simp [appendCards, card, hm2]⟩

/-- When every card builds, `renderResults(list)` returns normally with one card
per movie, in order. -/
theorem renderResults_ok (list : List Movie) (s : State)
    (h : ∀ m ∈ list, s.findsFav (cardMarkup m) = true) :
    renderResults list s =
      ({ s with trace := s.trace ++ [.render list],
                view := { s.view with
                  results := list.map fun m => { markup := cardMarkup m, favTarget := m },
                  resultsEmpty := s.view.resultsEmpty.map fun _ => decide (list = []) } },
       none) := by
  cases list with
  | nil => simp [renderResults_nil]
  | cons m ms =>
    simp only [renderResults, emit, List.length_cons, Nat.add_one_ne_zero, if_false]
    rw [appendCards_ok _ _ (by simpa using h)]
    simp

/-- In two states with the same parser `renderResults(list)` paints the same
list and ends the same way; it touches the view and the trace only. -/
theorem renderResults_congr (list : List Movie) (s t : State) (hf : s.findsFav = t.findsFav) :
    ∃ cs e,
      renderResults list s
        = ({ s with trace := s.trace ++ [.render list],
                    view := { s.view with
                      results := cs,
                      resultsEmpty := s.view.resultsEmpty.map fun _ => decide (list = []) } },
           e) ∧
      renderResults list t
        = ({ t with trace := t.trace ++ [.render list],
                    view := { t.view with
                      results := cs,
                      resultsEmpty := t.view.resultsEmpty.map fun _ => decide (list = []) } },
           e) := by
  cases list with
  | nil => exact ⟨[], none, by simp [renderResults_nil], by simp [renderResults_nil]⟩
  | cons m ms =>
    obtain ⟨cs, e, h1, h2⟩ := appendCards_congr (m :: ms)
      { s with trace := s.trace ++ [.render (m :: ms)],
               view := { s.view with
                 results := [],
                 resultsEmpty := s.view.resultsEmpty.map fun _ => false } }
      { t with trace := t.trace ++ [.render (m :: ms)],
               view := { t.view with
                 results := [],
                 resultsEmpty := t.view.resultsEmpty.map fun _ => false } }
      hf
    refine ⟨cs, e, ?_, ?_⟩
    · simp only [renderResults, emit, List.length_cons, Nat.add_one_ne_zero, if_false]
      rw [h1]; simp
    · simp only [renderResults, emit, List.length_cons, Nat.add_one_ne_zero, if_false]
      rw [h2]; simp

theorem doSearch_short (q : String) (s : State) (h : jsLength q < 2) :
    doSearch q s =
      { s with trace := s.trace ++ [.call s.now q, .render []],
               view := { s.view with
                 results := [],
                 resultsEmpty := s.view.resultsEmpty.map fun _ => true } } := by
  simp [doSearch, h, renderResults_nil, emit]

theorem doSearch_long (q : String) (s : State) (h : 2 ≤ jsLength q) :
    doSearch q s =
      { s with
        trace := s.trace ++ [.call s.now q] ++ (s.searchAbort.toList.map Effect.abort)
                   ++ [.loading true, .fetch s.nextCtl q s.now],
        aborted := s.searchAbort.toList ++ s.aborted,
        searchAbort := some s.nextCtl,
        nextCtl := s.nextCtl + 1,
        inflight := s.inflight ++ [⟨s.nextCtl, q, s.now⟩],
        view := { s.view with spinner := true } } := by
  have h2 : ¬ jsLength q < 2 := by omega
  cases hsa : s.searchAbort <;> simp [doSearch, h2, hsa, setLoading, emit, abort]

@[simp] theorem searchCalls_append (xs ys : List Effect) :
    searchCalls (xs ++ ys) = searchCalls xs ++ searchCalls ys := by
  induction xs with
  | nil => rfl
  | cons e es ih => cases e <;> simp [searchCalls, ih]

@[simp] theorem fetchCalls_append (xs ys : List Effect) :
    fetchCalls (xs ++ ys) = fetchCalls xs ++ fetchCalls ys := by
  induction xs with
  | nil => rfl
  | cons e es ih => cases e <;> simp [fetchCalls, ih]

@[simp] theorem renderCount_append (xs ys : List Effect) :
    renderCount (xs ++ ys) = renderCount xs + renderCount ys := by
  induction xs with
  | nil => simp [renderCount]
  | cons e es ih => cases e <;> simp [renderCount, ih]; omega

@[simp] theorem toasts_append (xs ys : List Effect) :
    toasts (xs ++ ys) = toasts xs ++ toasts ys := by
  induction xs with
  | nil => rfl
  | cons e es ih => cases e <;> simp [toasts, ih]

theorem settle_pending (ctl : Nat) (o : NetOutcome) (s : State)
    (hin : ∃ r ∈ s.inflight, r.ctl = ctl) :
    settle ctl o s
      = some (.ok (setLoading false (tryCatch ctl o
          { s with inflight := s.inflight.filter (fun r => r.ctl != ctl) }))) := by
  obtain ⟨r, hr, hc⟩ := hin
  have : s.inflight.any (fun r => r.ctl == ctl) = true := by
    simp only [List.any_eq_true]
    exact ⟨r, hr, by simp [hc]⟩
  simp [settle, this, resume]

theorem tryCatch_aborted (ctl : Nat) (o : NetOutcome) (s : State) (h : ctl ∈ s.aborted) :
    tryCatch ctl o s = s := by
  simp [tryCatch, tryBlock, catchBlock, awaitFetchJson, h]

theorem tryBlock_json (ctl : Nat) (status : Nat) (p : Payload) (s : State)
    (h : ctl ∉ s.aborted) :
    tryBlock ctl (.response status (.json p)) s = renderResults (p.results.getD []) s := by
  simp [tryBlock, awaitFetchJson, h]

/-- A decoded body whose cards all build is rendered and nothing is thrown. -/
theorem tryCatch_json (ctl : Nat) (status : Nat) (p : Payload) (s : State)
    (h : ctl ∉ s.aborted)
    (hcards : ∀ m ∈ p.results.getD [], s.findsFav (cardMarkup m) = true) :
    tryCatch ctl (.response status (.json p)) s = (renderResults (p.results.getD []) s).1 := by
  simp only [tryCatch, tryBlock_json _ _ _ _ h]
  rw [renderResults_ok _ _ hcards]

theorem tryCatch_error (ctl : Nat) (o : NetOutcome) (e : JsError) (s : State)
    (h : ctl ∉ s.aborted)
    (ho : o = .rejected e ∨ ∃ status, o = .response status (.invalid e)) :
    tryCatch ctl o s = catchBlock e s := by
  rcases ho with rfl | ⟨status, rfl⟩ <;>
    simp [tryCatch, tryBlock, awaitFetchJson, h]

/-- Every outcome is of one of three kinds. -/
theorem outcome_cases (o : NetOutcome) :
    (∃ status p, o = .response status (.json p)) ∨
    (∃ e, o = .rejected e ∨ ∃ status, o = .response status (.invalid e)) := by
  rcases o with e | ⟨st, (p | e)⟩
  · exact Or.inr ⟨e, Or.inl rfl⟩
  · exact Or.inl ⟨st, p, rfl⟩
  · exact Or.inr ⟨e, Or.inr ⟨st, rfl⟩⟩

/-- The shape of what the `try`/`catch` of a continuation does: it appends calls
to the trace, sets the result list and the placeholder, and may show the error
notice. In two states with the same view, the same parser and signals in the
same condition it does the same in both. -/
theorem tryCatch_shape (c d : Nat) (o : NetOutcome) (s t : State)
    (hv : s.view = t.view) (hab : c ∈ s.aborted ↔ d ∈ t.aborted)
    (hf : s.findsFav = t.findsFav) :
    ∃ (calls : List Effect) (cs : List Card) (re : Option Bool) (notice : Bool),
      toasts calls = [] ∧
      tryCatch c o s
        = (if notice then showToast "Error buscando películas" else id)
            { s with trace := s.trace ++ calls,
                     view := { s.view with results := cs, resultsEmpty := re } } ∧
      tryCatch d o t
        = (if notice then showToast "Error buscando películas" else id)
            { t with trace := t.trace ++ calls,
                     view := { t.view with results := cs, resultsEmpty := re } } := by
  by_cases hc : c ∈ s.aborted
  · rw [tryCatch_aborted _ _ _ hc, tryCatch_aborted _ _ _ (hab.mp hc)]
    exact ⟨[], s.view.results, s.view.resultsEmpty, false, rfl, by simp, by simp [hv]⟩
  · have hd : d ∉ t.aborted := fun h => hc (hab.mpr h)
    rcases outcome_cases o with ⟨st, p, rfl⟩ | ⟨e, ho⟩
    · obtain ⟨cs, e, h1, h2⟩ := renderResults_congr (p.results.getD []) s t hf
      simp only [tryCatch, tryBlock_json _ _ _ _ hc, tryBlock_json _ _ _ _ hd, h1, h2]
      cases e with
      | none =>
        exact ⟨[.render (p.results.getD [])], cs,
          s.view.resultsEmpty.map (fun _ => decide (p.results.getD [] = [])), false, by simp [toasts], by simp,
          by simp [hv]⟩
      | some e =>
        by_cases he : e.name = "AbortError"
        · exact ⟨[.render (p.results.getD [])], cs,
          s.view.resultsEmpty.map (fun _ => decide (p.results.getD [] = [])), false, by simp [toasts],
            by simp [catchBlock, he], by simp [catchBlock, he, hv]⟩
        · exact ⟨[.render (p.results.getD [])], cs,
          s.view.resultsEmpty.map (fun _ => decide (p.results.getD [] = [])), true, by simp [toasts],
            by simp [catchBlock, he], by simp [catchBlock, he, hv]⟩
    · rw [tryCatch_error _ _ e _ hc ho, tryCatch_error _ _ e _ hd ho]
      by_cases he : e.name = "AbortError"
      · exact ⟨[], s.view.results, s.view.resultsEmpty, false, rfl,
          by simp [catchBlock, he], by simp [catchBlock, he, hv]⟩
      · exact ⟨[], s.view.results, s.view.resultsEmpty, true, rfl,
          by simp [catchBlock, he], by simp [catchBlock, he, hv]⟩

/-- What the `try`/`catch` of a continuation paints depends on the state it
resumes in only through the view, the parser and whether its signal is aborted,
and the calls it makes are the same. -/
theorem tryCatch_congr (c d : Nat) (o : NetOutcome) (s t : State)
    (hv : s.view = t.view) (hab : c ∈ s.aborted ↔ d ∈ t.aborted)
    (hf : s.findsFav = t.findsFav) :
    (tryCatch c o s).view = (tryCatch d o t).view ∧
    ∃ calls, (tryCatch c o s).trace = s.trace ++ calls ∧
             (tryCatch d o t).trace = t.trace ++ calls := by
  obtain ⟨calls, cs, re, notice, -, h1, h2⟩ := tryCatch_shape c d o s t hv hab hf
  rw [h1, h2]
  cases notice
  · exact ⟨by simp [hv], calls, by simp, by simp⟩
  · exact ⟨by simp [showToast, setTimeout, emit, hv],
      calls ++ [.toast "Error buscando películas"],
      by simp [showToast, setTimeout, emit], by simp [showToast, setTimeout, emit]⟩

/-- The `try`/`catch` of a continuation leaves the request bookkeeping and the
parser alone. -/
theorem tryCatch_frame (c : Nat) (o : NetOutcome) (s : State) :
    (tryCatch c o s).aborted = s.aborted ∧ (tryCatch c o s).inflight = s.inflight ∧
    (tryCatch c o s).searchAbort = s.searchAbort ∧ (tryCatch c o s).nextCtl = s.nextCtl ∧
    (tryCatch c o s).findsFav = s.findsFav := by
  obtain ⟨calls, cs, re, notice, -, h1, -⟩ := tryCatch_shape c c o s s rfl Iff.rfl rfl
  rw [h1]
  cases notice <;> simp [showToast, setTimeout, emit]

/-! ## Claims about one call or one settlement -/

/-- C3: for every input whose trimmed length is below 2, `doSearch` on the
trimmed query starts no network call (no `fetch` is recorded, nothing becomes
pending) and leaves the result list empty; its only calls are its own entry and
`renderResults([])`. The same holds for each of the three triggers when the
field holds that input: the click, the Enter key and the debounce callback. -/
theorem short_query_skips_network (s : State) (v : String)
    (h : jsLength (jsTrim v) < 2) :
    (doSearch (jsTrim v) s).view.results = [] ∧
    (doSearch (jsTrim v) s).inflight = s.inflight ∧
    fetchCalls (doSearch (jsTrim v) s).trace = fetchCalls s.trace ∧
    (doSearch (jsTrim v) s).trace = s.trace ++ [.call s.now (jsTrim v), .render []] ∧
    (s.queryValue = v →
      (onClick s).view.results = [] ∧ (onClick s).inflight = s.inflight ∧
      fetchCalls (onClick s).trace = fetchCalls s.trace ∧
      (onKeydown "Enter" s).view.results = [] ∧ (onKeydown "Enter" s).inflight = s.inflight ∧
      fetchCalls (onKeydown "Enter" s).trace = fetchCalls s.trace ∧
      (runTimer .search s).view.results = [] ∧ (runTimer .search s).inflight = s.inflight ∧
      fetchCalls (runTimer .search s).trace = fetchCalls s.trace) := by
  refine ⟨?_, ?_, ?_, ?_, ?_⟩
  · rw [doSearch_short _ _ h]
  · rw [doSearch_short _ _ h]
  · rw [doSearch_short _ _ h]; simp [fetchCalls]
  · rw [doSearch_short _ _ h]
  · intro hv
    subst hv
    have hk : (clearTimeout s.searchTimer s).queryValue = s.queryValue := by
      cases hst : s.searchTimer <;> simp [clearTimeout]
    have hi : (clearTimeout s.searchTimer s).inflight = s.inflight := by
      cases hst : s.searchTimer <;> simp [clearTimeout]
    have ht : (clearTimeout s.searchTimer s).trace = s.trace := by
      cases hst : s.searchTimer <;> simp [clearTimeout]
    simp only [onClick, onKeydown, runTimer, if_true, hk]
    rw [doSearch_short _ _ h, doSearch_short _ _ h]
    simp [fetchCalls, hi, ht]

/-- C8, as amended: when the request of a controller that is pending and not
aborted (the current request) gets a response whose body decodes to the object
`p`, and the markup `card` builds for each movie of `p.results` parses with its
`[data-action="fav"]` button in place, the continuation of `doSearch` completes
normally and the result list is one card per movie of `p.results`, in the same
order, whatever was rendered before: each card carries the markup of the
template with the poster path and the title of its movie, and is bound to that
movie. The placeholder is shown exactly when the list is empty. When `p` has no
`results` the list is empty. No notice is shown and the loading indicator is
off. The calls made are `renderResults` and `setLoading(false)`, nothing else. -/
theorem success_replaces_list (s : State) (ctl status : Nat) (p : Payload)
    (hin : ∃ r ∈ s.inflight, r.ctl = ctl) (hcur : ctl ∉ s.aborted)
    (hcards : ∀ m ∈ p.results.getD [], s.findsFav (cardMarkup m) = true) :
    ∃ s', settle ctl (.response status (.json p)) s = some (.ok s') ∧
      s'.view.results = (p.results.getD []).map (fun m =>
        { markup :=
            "\n    <img class=\"poster\" src=\"https://image.tmdb.org/t/p/w342"
              ++ m.poster_path.getD ""
              ++ "\" onerror=\"this.style.display=\x27none\x27\" alt=\"Poster\"/>"
              ++ "\n    <div class=\"card-body\">"
              ++ "\n      <div class=\"title\">" ++ m.title ++ "</div>"
              ++ "\n      <div class=\"card-actions\">"
              ++ "\n        <button class=\"btn btn-primary\" data-action=\"fav\">⭐ Añadir</button>"
              ++ "\n      </div>"
              ++ "\n    </div>",
          favTarget := m }) ∧
      s'.view.resultsEmpty
        = s.view.resultsEmpty.map (fun _ => decide (p.results.getD [] = [])) ∧
      (p.results = none → s'.view.results = []) ∧
      toasts s'.trace = toasts s.trace ∧
      s'.view.toastShown = s.view.toastShown ∧
      s'.view.toastText = s.view.toastText ∧
      s'.view.spinner = false ∧
      s'.trace = s.trace ++ [.render (p.results.getD []), .loading false] := by
  have hs := settle_pending ctl (.response status (.json p)) s hin
  rw [tryCatch_json _ _ _ _ (by simpa using hcur) (by simpa using hcards),
    renderResults_ok _ _ (by simpa using hcards)] at hs
  refine ⟨_, hs, ?_, ?_, ?_, ?_, ?_, ?_, ?_, ?_⟩
  · simp [setLoading, emit, cardMarkup]
  · simp [setLoading, emit]
  · intro hp; simp [setLoading, emit, hp]
  · simp [setLoading, emit, toasts]
  · simp [setLoading, emit]
  · simp [setLoading, emit]
  · simp [setLoading, emit]
  · simp [setLoading, emit]

/-- C7: when the request of a controller that is pending and not aborted (the
current request) fails, either because `fetch` rejects or because decoding the
body rejects, with an error whose name is not `AbortError`, the continuation of
`doSearch` completes normally (nothing is thrown to the caller), the result list
and the empty-list placeholder are as before, exactly one notice is shown
(the calls made are one `showToast` and `setLoading(false)`), and the loading
indicator is off. -/
theorem transport_failure_keeps_list (s : State) (ctl : Nat) (o : NetOutcome) (e : JsError)
    (hin : ∃ r ∈ s.inflight, r.ctl = ctl) (hcur : ctl ∉ s.aborted)
    (ho : o = .rejected e ∨ ∃ status, o = .response status (.invalid e))
    (he : e.name ≠ "AbortError") :
    ∃ s', settle ctl o s = some (.ok s') ∧
      s'.view.results = s.view.results ∧
      s'.view.resultsEmpty = s.view.resultsEmpty ∧
      s'.trace = s.trace ++ [.toast "Error buscando películas", .loading false] ∧
      toasts s'.trace = toasts s.trace ++ ["Error buscando películas"] ∧
      renderCount s'.trace = renderCount s.trace ∧
      s'.view.toastShown = true ∧
      s'.view.toastText = "Error buscando películas" ∧
      s'.view.spinner = false := by
  refine ⟨setLoading false (showToast "Error buscando películas"
    { s with inflight := s.inflight.filter (fun r => r.ctl != ctl) }), ?_, ?_⟩
  · rw [settle_pending ctl _ s hin, tryCatch_error _ _ e _ (by simpa using hcur) ho]
    simp [catchBlock, he]
  · refine ⟨?_, ?_, ?_, ?_, ?_, ?_, ?_, ?_⟩ <;>
      simp [showToast, setTimeout, setLoading, emit, toasts, renderCount]

/-! ## Claims about overlapping requests -/

@[simp] theorem toasts_map_abort (l : List Nat) : toasts (l.map Effect.abort) = [] := by
  induction l with
  | nil => rfl
  | cons c cs ih => simp [toasts, ih]

@[simp] theorem renderCount_map_abort (l : List Nat) : renderCount (l.map Effect.abort) = 0 := by
  induction l with
  | nil => rfl
  | cons c cs ih => simp [renderCount, ih]

/-- What issuing a request (a query of length at least 2) does to the fields the
later settlements depend on. -/
theorem doSearch_long_facts (q : String) (s : State) (h : 2 ≤ jsLength q) :
    (doSearch q s).view = { s.view with spinner := true } ∧
    (doSearch q s).aborted = s.searchAbort.toList ++ s.aborted ∧
    (doSearch q s).inflight = s.inflight ++ [⟨s.nextCtl, q, s.now⟩] ∧
    (doSearch q s).searchAbort = some s.nextCtl ∧
    (doSearch q s).nextCtl = s.nextCtl + 1 ∧
    toasts (doSearch q s).trace = toasts s.trace ∧
    renderCount (doSearch q s).trace = renderCount s.trace ∧
    (doSearch q s).findsFav = s.findsFav := by
  rw [doSearch_long _ _ h]
  simp [toasts, renderCount]

/-- C1: last request wins. From a state whose controller identities are below
the counter, issue query `a` and then query `b` (both of trimmed length at least
2) while the request for `a` is pending, let the request for `b` settle with any
outcome `oB`, and only then the request for `a`, the network having produced any
outcome `oA` for it (a payload or a failure). Both continuations complete; the
settlement of `a` calls neither `renderResults` nor `showToast` (its only call
is `setLoading(false)`) and leaves the view as the outcome of `b` left it; and
that view, the notices shown and the number of renders are those of the run in
which `b` alone is issued and settles with `oB`. -/
theorem last_request_wins (s : State) (a b : String) (oA oB : NetOutcome)
    (hA : 2 ≤ jsLength (jsTrim a)) (hB : 2 ≤ jsLength (jsTrim b))
    (hslot : ∀ c, s.searchAbort = some c → c < s.nextCtl)
    (hab : ∀ c ∈ s.aborted, c < s.nextCtl) :
    ∃ sB sA sOnly,
      settle (s.nextCtl + 1) oB (doSearch (jsTrim b) (doSearch (jsTrim a) s)) = some (.ok sB) ∧
      settle s.nextCtl oA sB = some (.ok sA) ∧
      settle s.nextCtl oB (doSearch (jsTrim b) s) = some (.ok sOnly) ∧
      sA.trace = sB.trace ++ [.loading false] ∧
      sA.view = sB.view ∧
      sA.view = sOnly.view ∧
      toasts sA.trace = toasts sOnly.trace ∧
      renderCount sA.trace = renderCount sOnly.trace := by
  have h1 : s.nextCtl + 1 ∉ s.aborted := fun h => by have := hab _ h; omega
  have h2 : s.nextCtl ∉ s.aborted := fun h => by have := hab _ h; omega
  have h3 : s.searchAbort ≠ some (s.nextCtl + 1) := fun h => by have := hslot _ h; omega
  have h4 : s.searchAbort ≠ some s.nextCtl := fun h => by have := hslot _ h; omega
  obtain ⟨a1, a2, a3, a4, a5, a6, a7, a8⟩ := doSearch_long_facts (jsTrim a) s hA
  obtain ⟨b1, b2, b3, b4, b5, b6, b7, b8⟩ :=
    doSearch_long_facts (jsTrim b) (doSearch (jsTrim a) s) hB
  obtain ⟨c1, c2, c3, c4, c5, c6, c7, c8⟩ := doSearch_long_facts (jsTrim b) s hB
  generalize doSearch (jsTrim b) s = t at *
  generalize doSearch (jsTrim b) (doSearch (jsTrim a) s) = s2 at *
  generalize doSearch (jsTrim a) s = s1 at *
  have hinB : ∃ r ∈ s2.inflight, r.ctl = s.nextCtl + 1 :=
    ⟨⟨s1.nextCtl, jsTrim b, s1.now⟩, by simp [b3], by simp [a5]⟩
  have hinO : ∃ r ∈ t.inflight, r.ctl = s.nextCtl :=
    ⟨⟨s.nextCtl, jsTrim b, s.now⟩, by simp [c3], rfl⟩
  have hB2 : s.nextCtl + 1 ∉ s2.aborted := by
    rw [b2, a4, a2]
    cases hsa : s.searchAbort with
    | none => simpa using h1
    | some c => simpa using ⟨fun h => h3 (by rw [hsa, h]), h1⟩
  have hA2 : s.nextCtl ∈ s2.aborted := by
    rw [b2, a4]; simp
  have hO2 : s.nextCtl ∉ t.aborted := by
    rw [c2]
    cases hsa : s.searchAbort with
    | none => simpa using h2
    | some c => simpa using ⟨fun h => h4 (by rw [hsa, h]), h2⟩
  have hsB := settle_pending (s.nextCtl + 1) oB s2 hinB
  have hsO := settle_pending s.nextCtl oB t hinO
  obtain ⟨f1, f2, -, -, -⟩ := tryCatch_frame (s.nextCtl + 1) oB
    { s2 with inflight := s2.inflight.filter (fun r => r.ctl != s.nextCtl + 1) }
  obtain ⟨hview, calls, hc1, hc2⟩ := tryCatch_congr (s.nextCtl + 1) s.nextCtl oB
    { s2 with inflight := s2.inflight.filter (fun r => r.ctl != s.nextCtl + 1) }
    { t with inflight := t.inflight.filter (fun r => r.ctl != s.nextCtl) }
    (by simp [b1, c1, a1])
    (by simpa using iff_of_false hB2 hO2)
    (by simp [b8, a8, c8])
  generalize tryCatch (s.nextCtl + 1) oB
    { s2 with inflight := s2.inflight.filter (fun r => r.ctl != s.nextCtl + 1) } = x at *
  generalize tryCatch s.nextCtl oB
    { t with inflight := t.inflight.filter (fun r => r.ctl != s.nextCtl) } = y at *
  have hinA : ∃ r ∈ (setLoading false x).inflight, r.ctl = s.nextCtl := by
    refine ⟨⟨s.nextCtl, jsTrim a, s.now⟩, ?_, rfl⟩
    simp [setLoading, emit, f2, b3, a3]
  have hsA := settle_pending s.nextCtl oA (setLoading false x) hinA
  rw [tryCatch_aborted _ _ _ (by simpa [setLoading, emit, f1] using hA2)] at hsA
  refine ⟨_, _, _, hsB, hsA, hsO, ?_, ?_, ?_, ?_, ?_⟩
  · simp [setLoading, emit]
  · simp [setLoading, emit]
  · simp [setLoading, emit, hview]
  · simp [setLoading, emit, hc1, hc2, toasts, b6, a6, c6]
  · simp [setLoading, emit, hc1, hc2, renderCount, b7, a7, c7]

/-- C9: aborting a handle whose request has already settled is a no-op. In
every state where `searchAbort` refers to a controller with no pending request,
a new `doSearch` (query of length at least 2) calls `abort` on it and goes on:
its calls are its own entry, that `abort`, `setLoading(true)` and the new
`fetch`, with no render and no notice; the view is the one the same call gives
when the slot is empty; the result list and the toast are untouched; the only
request added is the new one; and no continuation of the old request remains
that a later settlement could run. -/
theorem abort_of_settled_is_noop (s : State) (c : Nat) (q : String) (o : NetOutcome)
    (hq : 2 ≤ jsLength q) (hslot : s.searchAbort = some c)
    (hdone : ∀ r ∈ s.inflight, r.ctl ≠ c) (hfresh : c < s.nextCtl) :
    (doSearch q s).trace
      = s.trace ++ [.call s.now q, .abort c, .loading true, .fetch s.nextCtl q s.now] ∧
    (doSearch q s).view = (doSearch q { s with searchAbort := none }).view ∧
    (doSearch q s).view.results = s.view.results ∧
    (doSearch q s).view.toastShown = s.view.toastShown ∧
    (doSearch q s).view.toastText = s.view.toastText ∧
    (doSearch q s).inflight = s.inflight ++ [⟨s.nextCtl, q, s.now⟩] ∧
    settle c o (doSearch q s) = none := by
  rw [doSearch_long _ _ hq, doSearch_long _ _ hq]
  refine ⟨by simp [hslot], rfl, rfl, rfl, rfl, rfl, ?_⟩
  have hne : ¬ s.nextCtl = c := by omega
  simpa [settle, hne] using hdone

/-- C10: `doSearch` with a query of length below 2 leaves the request slot, the
aborted signals and the pending requests as they are. So when a query of length
at least 2 is issued, a short one is processed while that request is pending
(the list is then empty), and the response of the first arrives with a
non-empty `results` whose cards build, the view ends up with the cards of the
earlier query. -/
theorem short_query_keeps_slot (s : State) (v1 v2 : String) (status : Nat) (p : Payload)
    (h1 : 2 ≤ jsLength (jsTrim v1)) (h2 : jsLength (jsTrim v2) < 2)
    (hp : p.results.getD [] ≠ [])
    (hcards : ∀ m ∈ p.results.getD [], s.findsFav (cardMarkup m) = true)
    (hslot : s.searchAbort ≠ some s.nextCtl) (hab : s.nextCtl ∉ s.aborted) :
    (doSearch (jsTrim v2) s).searchAbort = s.searchAbort ∧
    (doSearch (jsTrim v2) s).aborted = s.aborted ∧
    (doSearch (jsTrim v2) s).inflight = s.inflight ∧
    (doSearch (jsTrim v2) (doSearch (jsTrim v1) s)).view.results = [] ∧
    ∃ s', settle s.nextCtl (.response status (.json p))
            (doSearch (jsTrim v2) (doSearch (jsTrim v1) s)) = some (.ok s') ∧
      s'.view.results
        = (p.results.getD []).map (fun m => { markup := cardMarkup m, favTarget := m }) ∧
      s'.view.results ≠ [] := by
  obtain ⟨-, a2, a3, a4, -, -, -, a8⟩ := doSearch_long_facts (jsTrim v1) s h1
  have e1 := doSearch_short (jsTrim v2) s h2
  have e2 := doSearch_short (jsTrim v2) (doSearch (jsTrim v1) s) h2
  generalize doSearch (jsTrim v1) s = s1 at *
  have hnot : s.nextCtl ∉ s1.aborted := by
    rw [a2]
    cases hsa : s.searchAbort with
    | none => simpa using hab
    | some c => simpa using ⟨fun h => hslot (by rw [hsa, h]), hab⟩
  have hin : ∃ r ∈ (doSearch (jsTrim v2) s1).inflight, r.ctl = s.nextCtl :=
    ⟨⟨s.nextCtl, jsTrim v1, s.now⟩, by simp [e2, a3], rfl⟩
  have hc2 : ∀ m ∈ p.results.getD [],
      ({ doSearch (jsTrim v2) s1 with
          inflight := (doSearch (jsTrim v2) s1).inflight.filter
            (fun r => r.ctl != s.nextCtl) } : State).findsFav (cardMarkup m) = true := by
    intro m hm
    simpa [e2, a8] using hcards m hm
  have hs := settle_pending s.nextCtl (.response status (.json p)) _ hin
  rw [tryCatch_json _ _ _ _ (by simpa [e2] using hnot) hc2,
    renderResults_ok _ _ hc2] at hs
  refine ⟨by rw [e1], by rw [e1], by rw [e1], by rw [e2], _, hs, ?_, ?_⟩
  · simp [setLoading, emit]
  · simpa [setLoading, emit] using hp

/-! ## The debounce timer -/

theorem nextDue_none {target : Nat} {ts : List Timer} (h : nextDue target ts = none) :
    ∀ t ∈ ts, target < t.due := by
  induction ts with
  | nil => simp
  | cons t ts ih =>
    simp only [nextDue] at h
    cases hn : nextDue target ts with
    | none =>
      rw [hn] at h
      simp only at h
      split at h
      · exact absurd h (by simp)
      · intro x hx
        rcases List.mem_cons.mp hx with rfl | hx
        · omega
        · exact ih hn x hx
    | some u =>
      rw [hn] at h
      simp only at h
      split at h <;> exact absurd h (by simp)

theorem nextDue_some {target : Nat} {ts : List Timer} {t : Timer}
    (h : nextDue target ts = some t) :
    t ∈ ts ∧ t.due ≤ target ∧ ∀ x ∈ ts, x.due ≤ target → t.due ≤ x.due := by
  induction ts generalizing t with
  | nil => simp [nextDue] at h
  | cons a ts ih =>
    simp only [nextDue] at h
    cases hn : nextDue target ts with
    | none =>
      rw [hn] at h
      simp only at h
      split at h
      · rename_i ha
        have hat : a = t := by simpa using h
        subst hat
        refine ⟨by simp, ha, ?_⟩
        intro x hx hxd
        rcases List.mem_cons.mp hx with rfl | hx
        · exact le_refl _
        · have := nextDue_none hn x hx; omega
      · exact absurd h (by simp)
    | some u =>
      rw [hn] at h
      simp only at h
      obtain ⟨hu1, hu2, hu3⟩ := ih hn
      split at h
      · rename_i ha
        have hat : a = t := by simpa using h
        subst hat
        refine ⟨by simp, by omega, ?_⟩
        intro x hx hxd
        rcases List.mem_cons.mp hx with rfl | hx
        · exact le_refl _
        · have := hu3 x hx hxd; omega
      · rename_i ha
        have hut : u = t := by simpa using h
        subst hut
        refine ⟨by simp [hu1], hu2, ?_⟩
        intro x hx hxd
        rcases List.mem_cons.mp hx with rfl | hx
        · omega
        · exact hu3 x hx hxd

/-- While no search timer is due, letting time pass fires toast timers only:
no call is made, and the field, the timer variable and the pending search
timers stay as they are. -/
theorem advanceTo_quiet (target : Nat) (fuel : Nat) (s : State)
    (hnd : (s.timers.map Timer.id).Nodup)
    (hq : ∀ t ∈ s.timers, t.action = .search → target < t.due) :
    (advanceTo target fuel s).trace = s.trace ∧
    (advanceTo target fuel s).queryValue = s.queryValue ∧
    (advanceTo target fuel s).searchTimer = s.searchTimer ∧
    (advanceTo target fuel s).nextTimer = s.nextTimer ∧
    (advanceTo target fuel s).now = max s.now target ∧
    (advanceTo target fuel s).timers.Sublist s.timers ∧
    ∀ t ∈ s.timers, t.action = .search → t ∈ (advanceTo target fuel s).timers := by
  induction fuel generalizing s with
  | zero => simpa [advanceTo] using fun t ht _ => ht
  | succ fuel ih =>
    simp only [advanceTo]
    cases hn : nextDue target s.timers with
    | none => simpa using fun t ht _ => ht
    | some t =>
      simp only
      obtain ⟨ht1, ht2, -⟩ := nextDue_some hn
      have hact : t.action = .hideToast := by
        cases ha : t.action with
        | search => have := hq t ht1 ha; omega
        | hideToast => rfl
      rw [hact]
      simp only [runTimer]
      have hsub : (s.timers.filter (fun u => u.id != t.id)).Sublist s.timers :=
        List.filter_sublist _
      obtain ⟨i1, i2, i3, i4, i5, i6, i7⟩ := ih
        { s with now := max s.now t.due,
                 timers := s.timers.filter (fun u => u.id != t.id),
                 view := { s.view with toastShown := false } }
        (List.Nodup.sublist (List.Sublist.map _ hsub) hnd)
        (fun x hx hxa => hq x (hsub.subset hx) hxa)
      refine ⟨i1, i2, i3, i4, ?_, i6.trans hsub, ?_⟩
      · rw [i5]; simp only; omega
      · intro x hx hxa
        apply i7 x _ hxa
        simp only [List.mem_filter]
        refine ⟨hx, ?_⟩
        have hne : x ≠ t := fun h => by rw [h, hact] at hxa; cases hxa
        have : x.id ≠ t.id := fun h =>
          hne (List.inj_on_of_nodup_map hnd hx ht1 h)
        simpa using this

@[simp] theorem searchCalls_map_abort (l : List Nat) :
    searchCalls (l.map Effect.abort) = [] := by
  induction l with
  | nil => rfl
  | cons c cs ih => simp [searchCalls, ih]

@[simp] theorem fetchCalls_map_abort (l : List Nat) :
    fetchCalls (l.map Effect.abort) = [] := by
  induction l with
  | nil => rfl
  | cons c cs ih => simp [fetchCalls, ih]

/-- One run of `doSearch` is one recorded invocation and, for a query of length
at least 2, one recorded network call; it touches neither the timers, the field
nor the clock. -/
theorem doSearch_calls (q : String) (s : State) :
    searchCalls (doSearch q s).trace = searchCalls s.trace ++ [(s.now, q)] ∧
    fetchCalls (doSearch q s).trace
      = fetchCalls s.trace ++ (if 2 ≤ jsLength q then [q] else []) ∧
    (doSearch q s).timers = s.timers ∧
    (doSearch q s).nextTimer = s.nextTimer ∧
    (doSearch q s).searchTimer = s.searchTimer ∧
    (doSearch q s).queryValue = s.queryValue ∧
    (doSearch q s).now = s.now := by
  by_cases h : 2 ≤ jsLength q
  · rw [doSearch_long _ _ h]
    simp [searchCalls, fetchCalls, h]
  · have h2 : jsLength q < 2 := by omega
    rw [doSearch_short _ _ h2]
    simp [searchCalls, fetchCalls, h]

theorem length_filter_lt {ts : List Timer} {t : Timer} (ht : t ∈ ts) :
    (ts.filter (fun u => u.id != t.id)).length < ts.length := by
  induction ts with
  | nil => simp at ht
  | cons a ts ih =>
    by_cases ha : a.id = t.id
    · have : (List.filter (fun u => u.id != t.id) (a :: ts))
          = List.filter (fun u => u.id != t.id) ts :=
        List.filter_cons_of_neg (by simp [ha])
      rw [this]
      have := List.length_filter_le (fun u : Timer => u.id != t.id) ts
      simp only [List.length_cons]
      omega
    · have hat : t ∈ ts := by
        rcases List.mem_cons.mp ht with rfl | h
        · exact absurd rfl ha
        · exact h
      have : (List.filter (fun u => u.id != t.id) (a :: ts))
          = a :: List.filter (fun u => u.id != t.id) ts :=
        List.filter_cons_of_pos (by simpa using ha)
      rw [this]
      have := ih hat
      simp only [List.length_cons]
      omega

/-- When exactly one search timer is pending and it is due by `target`, letting
time pass runs `doSearch` once, at the due time of that timer, on the trimmed
value of the field; afterwards no search timer is pending. -/
theorem advanceTo_fires (target : Nat) (fuel : Nat) (s : State) (u : Timer)
    (hfuel : s.timers.length ≤ fuel)
    (hnd : (s.timers.map Timer.id).Nodup)
    (hu : u ∈ s.timers) (hua : u.action = .search)
    (hdue : u.due ≤ target) (hnow : s.now ≤ u.due)
    (honly : ∀ t ∈ s.timers, t.action = .search → t = u) :
    searchCalls (advanceTo target fuel s).trace
      = searchCalls s.trace ++ [(u.due, jsTrim s.queryValue)] ∧
    fetchCalls (advanceTo target fuel s).trace
      = fetchCalls s.trace ++
          (if 2 ≤ jsLength (jsTrim s.queryValue) then [jsTrim s.queryValue] else []) ∧
    ∀ t ∈ (advanceTo target fuel s).timers, t.action ≠ .search := by
  induction fuel generalizing s with
  | zero =>
    have : s.timers = [] := List.length_eq_zero.mp (by omega)
    rw [this] at hu
    simp at hu
  | succ fuel ih =>
    simp only [advanceTo]
    cases hn : nextDue target s.timers with
    | none => have := nextDue_none hn u hu; omega
    | some t =>
      simp only
      obtain ⟨ht1, ht2, ht3⟩ := nextDue_some hn
      have hsub : (s.timers.filter (fun x => x.id != t.id)).Sublist s.timers :=
        List.filter_sublist _
      have hnd2 := List.Nodup.sublist (List.Sublist.map Timer.id hsub) hnd
      cases ha : t.action with
      | search =>
        have htu : t = u := honly t ht1 ha
        subst htu
        simp only [runTimer]
        obtain ⟨d1, d2, d3, -, -, -, -⟩ := doSearch_calls (jsTrim s.queryValue)
          { s with now := max s.now t.due,
                   timers := s.timers.filter (fun x => x.id != t.id) }
        have hnone : ∀ x ∈ s.timers.filter (fun x => x.id != t.id), x.action ≠ .search := by
          intro x hx hxa
          have hxm := hsub.subset hx
          have := honly x hxm hxa
          subst this
          simp at hx
        obtain ⟨q1, -, -, -, -, q6, -⟩ := advanceTo_quiet target fuel
          (doSearch (jsTrim s.queryValue)
            { s with now := max s.now t.due,
                     timers := s.timers.filter (fun x => x.id != t.id) })
          (by rw [d3]; exact hnd2)
          (by rw [d3]; intro x hx hxa; exact absurd hxa (hnone x hx))
        rw [q1, d1, d2]
        refine ⟨?_, rfl, ?_⟩
        · simp only [max_eq_right hnow]
        · intro x hx
          exact hnone x (by simpa [d3] using q6.subset hx)
      | hideToast =>
        simp only [runTimer]
        have hne : u ≠ t := fun h => by rw [h, ha] at hua; cases hua
        have hid : u.id ≠ t.id := fun h => hne (List.inj_on_of_nodup_map hnd hu ht1 h)
        have hu2 : u ∈ s.timers.filter (fun x => x.id != t.id) := by
          simp only [List.mem_filter]
          exact ⟨hu, by simpa using hid⟩
        have := ih
          { s with now := max s.now t.due,
                   timers := s.timers.filter (fun x => x.id != t.id),
                   view := { s.view with toastShown := false } }
          (by have := length_filter_lt ht1; simp only; omega)
          hnd2 hu2
          (by simp only; have := ht3 u hu hdue; omega)
          (fun x hx hxa => honly x (hsub.subset hx) hxa)
        simpa using this

theorem Armed.timersOk {T : Nat} {v : String} {s : State} (h : Armed T v s) : TimersOk s := by
  obtain ⟨h1, h2, -, i, h4, -, h6⟩ := h
  refine ⟨h1, h2, ?_⟩
  intro t ht hta
  rw [h6 t ht hta]
  exact h4

theorem clearTimeout_timers (s : State) :
    (clearTimeout s.searchTimer s).timers.Sublist s.timers ∧
    (TimersOk s → ∀ t ∈ (clearTimeout s.searchTimer s).timers, t.action ≠ .search) := by
  cases hst : s.searchTimer with
  | none =>
    refine ⟨by simp [clearTimeout], ?_⟩
    intro hok t ht hta
    have := hok.2.2 t (by simpa [clearTimeout] using ht) hta
    rw [hst] at this
    cases this
  | some i =>
    refine ⟨by simp [clearTimeout], ?_⟩
    intro hok t ht hta
    simp only [clearTimeout, List.mem_filter] at ht
    have := hok.2.2 t ht.1 hta
    rw [hst] at this
    have hid : i = t.id := by simpa using this
    simp [hid] at ht

theorem onInput_eq (v : String) (s : State) :
    onInput v s =
      { s with queryValue := v,
               timers := (clearTimeout s.searchTimer s).timers
                           ++ [⟨s.nextTimer, s.now + 350, .search⟩],
               nextTimer := s.nextTimer + 1,
               searchTimer := some s.nextTimer } := by
  cases hst : s.searchTimer <;> simp [onInput, clearTimeout, setTimeout, hst]

/-- An `input` event arms the debounce and makes no call. -/
theorem onInput_arms (v : String) (s : State) (hok : TimersOk s) :
    Armed s.now v (onInput v s) ∧ (onInput v s).trace = s.trace ∧
    (onInput v s).now = s.now := by
  obtain ⟨hsub, hclean⟩ := clearTimeout_timers s
  have hclean := hclean hok
  rw [onInput_eq]
  refine ⟨⟨?_, ?_, rfl, s.nextTimer, rfl, by simp, ?_⟩, rfl, rfl⟩
  · simp only [List.map_append, List.map_cons, List.map_nil]
    rw [List.nodup_append]
    refine ⟨List.Nodup.sublist (List.Sublist.map _ hsub) hok.1, by simp, ?_⟩
    intro a ha hb
    simp only [List.mem_singleton] at hb
    subst hb
    obtain ⟨t, ht, hta⟩ := List.mem_map.mp ha
    have := hok.2.1 t (hsub.subset ht)
    omega
  · intro t ht
    simp only [List.mem_append, List.mem_singleton] at ht
    rcases ht with ht | rfl
    · have := hok.2.1 t (hsub.subset ht); simp only; omega
    · simp
  · intro t ht hta
    simp only [List.mem_append, List.mem_singleton] at ht
    rcases ht with ht | rfl
    · exact absurd hta (hclean t ht)
    · rfl

/-- Before the debounce delay is over, letting time pass makes no call and
leaves the debounce armed. -/
theorem advance_quiet (T d : Nat) (v : String) (s : State) (h : Armed T v s)
    (hd : s.now + d < T + 350) :
    Armed T v (advance d s) ∧ (advance d s).trace = s.trace ∧
    (advance d s).now = s.now + d := by
  obtain ⟨h1, h2, h3, i, h4, h5, h6⟩ := h
  obtain ⟨q1, q2, q3, q4, q5, q6, q7⟩ := advanceTo_quiet (s.now + d) s.timers.length s h1
    (fun t ht hta => by rw [h6 t ht hta]; simpa using hd)
  refine ⟨⟨?_, ?_, ?_, i, ?_, ?_, ?_⟩, q1, ?_⟩
  · exact List.Nodup.sublist (List.Sublist.map _ q6) h1
  · intro t ht
    have := h2 t (q6.subset ht)
    simpa [advance, q4] using this
  · simpa [advance, q2] using h3
  · simpa [advance, q3] using h4
  · exact q7 _ h5 rfl
  · intro t ht hta
    exact h6 t (q6.subset ht) hta
  · simp only [advance, q5]; omega

/-- Once the debounce delay is over, `doSearch` has run exactly once, at the
due time, on the trimmed value of the field. -/
theorem advance_fires (T d : Nat) (v : String) (s : State) (h : Armed T v s)
    (hnow : s.now ≤ T + 350) (hd : T + 350 ≤ s.now + d) :
    searchCalls (advance d s).trace = searchCalls s.trace ++ [(T + 350, jsTrim v)] ∧
    fetchCalls (advance d s).trace
      = fetchCalls s.trace ++ (if 2 ≤ jsLength (jsTrim v) then [jsTrim v] else []) ∧
    ∀ t ∈ (advance d s).timers, t.action ≠ .search := by
  obtain ⟨h1, h2, h3, i, h4, h5, h6⟩ := h
  have := advanceTo_fires (s.now + d) s.timers.length s ⟨i, T + 350, .search⟩
    (le_refl _) h1 h5 rfl hd hnow h6
  simpa [advance, h3] using this

theorem lastValue_cons (v : String) (p : Nat × String) (rest : List (Nat × String)) :
    lastValue v (p :: rest) = lastValue p.2 rest := by
  cases rest with
  | nil => simp [lastValue]
  | cons q r =>
    obtain ⟨x, hx⟩ : ∃ x, (q :: r).getLast? = some x :=
      ⟨_, List.getLast?_eq_getLast _ (List.cons_ne_nil _ _)⟩
    simp only [lastValue, List.getLast?_cons_cons, hx, Option.map_some', Option.getD_some]

/-- A burst of `input` events, each less than 350 ms after the one before, makes
no call and ends with the debounce armed at the time of the last event for the
last value. -/
theorem burst_armed (rest : List (Nat × String)) (v : String) (s : State)
    (h : Armed s.now v s) (hgap : ∀ p ∈ rest, p.1 < 350) :
    Armed (s.now + (rest.map Prod.fst).sum) (lastValue v rest)
      (rest.foldl (fun s p => onInput p.2 (advance p.1 s)) s) ∧
    (rest.foldl (fun s p => onInput p.2 (advance p.1 s)) s).now
      = s.now + (rest.map Prod.fst).sum ∧
    (rest.foldl (fun s p => onInput p.2 (advance p.1 s)) s).trace = s.trace := by
  induction rest generalizing v s with
  | nil => simpa [lastValue] using h
  | cons p rest ih =>
    have hp : p.1 < 350 := hgap p (by simp)
    obtain ⟨a1, a2, a3⟩ := advance_quiet s.now p.1 v s h (by omega)
    obtain ⟨b1, b2, b3⟩ := onInput_arms p.2 (advance p.1 s) a1.timersOk
    obtain ⟨c1, c2, c3⟩ := ih p.2 (onInput p.2 (advance p.1 s)) (by rw [b3]; exact b1)
      (fun q hq => hgap q (by simp [hq]))
    simp only [List.foldl_cons, List.map_cons, List.sum_cons, lastValue_cons]
    rw [b3, a3] at c1 c2
    refine ⟨by simpa [Nat.add_assoc] using c1, by simpa [Nat.add_assoc] using c2, ?_⟩
    rw [c3, b2, a2]

/-- C2: a burst of `input` events on the query field, each less than 350 ms
after the one before, started in any state with sound timer bookkeeping. During
the burst and until 350 ms after its last event `doSearch` is not invoked. Once
350 ms or more have passed since the last event, `doSearch` has been invoked
exactly once, at 350 ms after the last event, with the trimmed value the field
holds then, which is the value of the last event; exactly one network call has
been issued, for that query, when its length is at least 2, and none otherwise;
and no search timer is left to fire. -/
theorem debounce_single_lookup (s : State) (v : String) (rest : List (Nat × String))
    (d : Nat) (hok : TimersOk s) (hgap : ∀ p ∈ rest, p.1 < 350) (hd : 350 ≤ d) :
    (burst v rest s).now = s.now + (rest.map Prod.fst).sum ∧
    (burst v rest s).queryValue = lastValue v rest ∧
    (∀ e, e < 350 → searchCalls (advance e (burst v rest s)).trace = searchCalls s.trace) ∧
    searchCalls (advance d (burst v rest s)).trace
      = searchCalls s.trace ++ [((burst v rest s).now + 350, jsTrim (lastValue v rest))] ∧
    fetchCalls (advance d (burst v rest s)).trace
      = fetchCalls s.trace ++
          (if 2 ≤ jsLength (jsTrim (lastValue v rest)) then [jsTrim (lastValue v rest)] else []) ∧
    ∀ t ∈ (advance d (burst v rest s)).timers, t.action ≠ .search := by
  obtain ⟨a1, a2, a3⟩ := onInput_arms v s hok
  obtain ⟨b1, b2, b3⟩ := burst_armed rest v (onInput v s) (by rw [a3]; exact a1) hgap
  rw [a3] at b1 b2
  rw [a2] at b3
  have hb : burst v rest s = rest.foldl (fun s p => onInput p.2 (advance p.1 s)) (onInput v s) := rfl
  rw [← hb] at b1 b2 b3
  refine ⟨b2, b1.2.2.1, ?_, ?_⟩
  · intro e he
    obtain ⟨-, q2, -⟩ := advance_quiet _ e _ _ b1 (by omega)
    rw [q2, b3]
  · have := advance_fires _ d _ _ b1 (by omega) (by omega)
    rw [b3, ← b2] at this
    exact this

/-! ## Bookkeeping invariants of reachable states -/

theorem runTimer_frame (a : TimerAction) (s : State) :
    (runTimer a s).timers = s.timers ∧ (runTimer a s).nextTimer = s.nextTimer ∧
    (runTimer a s).searchTimer = s.searchTimer := by
  cases a with
  | search =>
    obtain ⟨-, -, d3, d4, d5, -, -⟩ := doSearch_calls (jsTrim s.queryValue) s
    exact ⟨d3, d4, d5⟩
  | hideToast => exact ⟨rfl, rfl, rfl⟩

theorem advanceTo_frame (target fuel : Nat) (s : State) :
    (advanceTo target fuel s).timers.Sublist s.timers ∧
    (advanceTo target fuel s).nextTimer = s.nextTimer ∧
    (advanceTo target fuel s).searchTimer = s.searchTimer := by
  induction fuel generalizing s with
  | zero => simp [advanceTo]
  | succ fuel ih =>
    simp only [advanceTo]
    cases hn : nextDue target s.timers with
    | none => simp
    | some t =>
      simp only
      obtain ⟨r1, r2, r3⟩ := runTimer_frame t.action
        { s with now := max s.now t.due, timers := s.timers.filter (fun u => u.id != t.id) }
      obtain ⟨i1, i2, i3⟩ := ih (runTimer t.action
        { s with now := max s.now t.due, timers := s.timers.filter (fun u => u.id != t.id) })
      rw [r1] at i1
      exact ⟨i1.trans (List.filter_sublist _), by rw [i2, r2], by rw [i3, r3]⟩

/-- The rounds of `advance` are enough: afterwards no pending timer is due. -/
theorem advanceTo_done (target fuel : Nat) (s : State) (h : s.timers.length ≤ fuel) :
    ∀ t ∈ (advanceTo target fuel s).timers, target < t.due := by
  induction fuel generalizing s with
  | zero =>
    have : s.timers = [] := List.length_eq_zero.mp (by omega)
    simp [advanceTo, this]
  | succ fuel ih =>
    simp only [advanceTo]
    cases hn : nextDue target s.timers with
    | none => exact nextDue_none hn
    | some t =>
      simp only
      obtain ⟨ht1, -, -⟩ := nextDue_some hn
      apply ih
      rw [(runTimer_frame _ _).1]
      have := length_filter_lt ht1
      simp only
      omega

theorem advance_done (ms : Nat) (s : State) :
    ∀ t ∈ (advance ms s).timers, s.now + ms < t.due :=
  advanceTo_done _ _ s (le_refl _)

theorem TimersOk.of_sublist {s s1 : State} (h : TimersOk s)
    (hsub : s1.timers.Sublist s.timers) (hn : s1.nextTimer = s.nextTimer)
    (hs : s1.searchTimer = s.searchTimer) : TimersOk s1 := by
  refine ⟨List.Nodup.sublist (List.Sublist.map _ hsub) h.1, ?_, ?_⟩
  · intro t ht; rw [hn]; exact h.2.1 t (hsub.subset ht)
  · intro t ht hta; rw [hs]; exact h.2.2 t (hsub.subset ht) hta

theorem showToast_timersOk (msg : String) (s : State) (h : TimersOk s) :
    TimersOk (showToast msg s) := by
  obtain ⟨h1, h2, h3⟩ := h
  refine ⟨?_, ?_, ?_⟩
  · simp only [showToast, setTimeout, emit, List.map_append, List.map_cons, List.map_nil]
    rw [List.nodup_append]
    refine ⟨h1, by simp, ?_⟩
    intro a ha hb
    simp only [List.mem_singleton] at hb
    subst hb
    obtain ⟨t, ht, hta⟩ := List.mem_map.mp ha
    have := h2 t ht
    omega
  · intro t ht
    simp only [showToast, setTimeout, emit, List.mem_append, List.mem_singleton] at ht ⊢
    rcases ht with ht | rfl
    · have := h2 t ht; omega
    · simp
  · intro t ht hta
    simp only [showToast, setTimeout, emit, List.mem_append, List.mem_singleton] at ht ⊢
    rcases ht with ht | rfl
    · exact h3 t ht hta
    · cases hta

theorem tryCatch_timersOk (c : Nat) (o : NetOutcome) (s : State) (h : TimersOk s) :
    TimersOk (tryCatch c o s) := by
  obtain ⟨calls, cs, re, notice, -, h1, -⟩ := tryCatch_shape c c o s s rfl Iff.rfl rfl
  rw [h1]
  have h0 : TimersOk { s with trace := s.trace ++ calls,
                              view := { s.view with results := cs, resultsEmpty := re } } :=
    h.of_sublist (List.Sublist.refl _) rfl rfl
  cases notice
  · simpa using h0
  · simpa using showToast_timersOk _ _ h0

theorem settle_cases (ctl : Nat) (o : NetOutcome) (s : State) :
    settle ctl o s = none ∨
    settle ctl o s = some (.ok (setLoading false (tryCatch ctl o
      { s with inflight := s.inflight.filter (fun r => r.ctl != ctl) }))) := by
  by_cases h : s.inflight.any (fun r => r.ctl == ctl) = true
  · exact Or.inr (by simp only [settle, h, resume]; rfl)
  · exact Or.inl (by simp only [settle, h]; rfl)

theorem doSearch_timersOk (q : String) (s : State) (h : TimersOk s) :
    TimersOk (doSearch q s) := by
  obtain ⟨-, -, d3, d4, d5, -, -⟩ := doSearch_calls q s
  exact h.of_sublist (by rw [d3]) d4 d5

theorem step_timersOk (s : State) (e : Event) (h : TimersOk s) : TimersOk (step s e) := by
  cases e with
  | input v => exact (onInput_arms v s h).1.timersOk
  | click => exact doSearch_timersOk _ s h
  | keydown key =>
    simp only [step, onKeydown]
    split
    · apply doSearch_timersOk
      have hsub := (clearTimeout_timers s).1
      refine h.of_sublist hsub ?_ ?_ <;> cases hst : s.searchTimer <;> simp [clearTimeout, hst]
    · exact h
  | wait ms =>
    obtain ⟨f1, f2, f3⟩ := advanceTo_frame (s.now + ms) s.timers.length s
    exact h.of_sublist f1 f2 f3
  | settled ctl o =>
    simp only [step]
    rcases settle_cases ctl o s with hs | hs
    · rw [hs]; exact h
    · rw [hs]
      have := tryCatch_timersOk ctl o
        { s with inflight := s.inflight.filter (fun r => r.ctl != ctl) }
        (h.of_sublist (List.Sublist.refl _) rfl rfl)
      exact this.of_sublist (by simp [setLoading, emit]) rfl rfl

theorem doSearch_ctlOk (q : String) (s : State) (h : CtlOk s) : CtlOk (doSearch q s) := by
  obtain ⟨h1, h2, h3⟩ := h
  by_cases hq : 2 ≤ jsLength q
  · rw [doSearch_long _ _ hq]
    have hab : ∀ c ∈ s.searchAbort.toList ++ s.aborted, c < s.nextCtl := by
      intro c hc
      rcases List.mem_append.mp hc with hc | hc
      · exact (h1 c (by simpa using hc)).1
      · exact h2 c hc
    refine ⟨?_, ?_, ?_⟩
    · intro c hc
      have hcn : s.nextCtl = c := by simpa using hc
      subst hcn
      exact ⟨by simp, fun hm => by have := hab _ hm; omega⟩
    · intro c hc
      have := hab c hc
      simp only
      omega
    · intro r hr
      simp only [List.mem_append, List.mem_singleton] at hr
      rcases hr with hr | rfl
      · have := h3 r hr; simp only; omega
      · simp
  · rw [doSearch_short _ _ (by omega)]
    exact ⟨h1, h2, h3⟩

theorem CtlOk.congr {s s1 : State} (h : CtlOk s) (ha : s1.searchAbort = s.searchAbort)
    (hb : s1.aborted = s.aborted) (hc : s1.nextCtl = s.nextCtl)
    (hd : ∀ r ∈ s1.inflight, r ∈ s.inflight) : CtlOk s1 := by
  obtain ⟨h1, h2, h3⟩ := h
  refine ⟨?_, ?_, ?_⟩
  · intro c hcs; rw [hc, hb]; exact h1 c (by rw [← ha]; exact hcs)
  · intro c hcs; rw [hc]; exact h2 c (by rw [← hb]; exact hcs)
  · intro r hr; rw [hc]; exact h3 r (hd r hr)

theorem advanceTo_ctlOk (target fuel : Nat) (s : State) (h : CtlOk s) :
    CtlOk (advanceTo target fuel s) := by
  induction fuel generalizing s with
  | zero => exact h.congr rfl rfl rfl (fun r hr => hr)
  | succ fuel ih =>
    simp only [advanceTo]
    cases hn : nextDue target s.timers with
    | none => exact h.congr rfl rfl rfl (fun r hr => hr)
    | some t =>
      simp only
      apply ih
      have h0 : CtlOk { s with now := max s.now t.due,
                               timers := s.timers.filter (fun u => u.id != t.id) } :=
        h.congr rfl rfl rfl (fun r hr => hr)
      cases t.action with
      | search => exact doSearch_ctlOk _ _ h0
      | hideToast => exact h0.congr rfl rfl rfl (fun r hr => hr)

theorem step_ctlOk (s : State) (e : Event) (h : CtlOk s) : CtlOk (step s e) := by
  cases e with
  | input v => rw [step, onInput_eq]; exact h.congr rfl rfl rfl (fun r hr => hr)
  | click => exact doSearch_ctlOk _ s h
  | keydown key =>
    simp only [step, onKeydown]
    split
    · apply doSearch_ctlOk
      cases hst : s.searchTimer <;> exact h.congr rfl rfl rfl (fun r hr => hr)
    · exact h
  | wait ms => exact advanceTo_ctlOk _ _ s h
  | settled ctl o =>
    simp only [step]
    rcases settle_cases ctl o s with hs | hs
    · rw [hs]; exact h
    · rw [hs]
      obtain ⟨f1, f2, f3, f4, -⟩ := tryCatch_frame ctl o
        { s with inflight := s.inflight.filter (fun r => r.ctl != ctl) }
      refine h.congr ?_ ?_ ?_ ?_
      · simpa [setLoading, emit] using f3
      · simpa [setLoading, emit] using f1
      · simpa [setLoading, emit] using f4
      · intro r hr
        have : r ∈ s.inflight.filter (fun r => r.ctl != ctl) := by
          simpa [setLoading, emit, f2] using hr
        exact (List.mem_filter.mp this).1

/-- Sound bookkeeping is kept by every sequence of events. -/
theorem run_ok (es : List Event) (s : State) (h : TimersOk s ∧ CtlOk s) :
    TimersOk (run es s) ∧ CtlOk (run es s) := by
  induction es generalizing s with
  | nil => exact h
  | cons e es ih => exact ih (step s e) ⟨step_timersOk s e h.1, step_ctlOk s e h.2⟩

/-- Every state reached from the initial one by any sequence of events, whatever
the parser of the document, has sound timer and request bookkeeping, so the
side conditions of the theorems on `TimersOk` and on fresh controller
identities hold wherever the page can be. -/
theorem reachable_ok (findsFav : String → Bool) (es : List Event) :
    TimersOk (run es (initWith findsFav)) ∧ CtlOk (run es (initWith findsFav)) := by
  refine run_ok es _ ⟨?_, ?_⟩
  · simp [TimersOk, initWith, blankWith, renderResults, emit]
  · simp [CtlOk, initWith, blankWith, renderResults, emit]

/-! ## Evaluations on concrete runs -/

/-- C5: `doSearch("bat")` then `doSearch("batman")` from the initial state: the
second call aborts the first request and turns the loading indicator on. When
the aborted request settles, its continuation makes one call, `setLoading(false)`:
the indicator goes off although the request for "batman" is still pending and
not aborted. -/
theorem superseded_settlement_hides_spinner :
    (doSearch "batman" (doSearch "bat" init)).view.spinner = true ∧
    ∃ s', settle 0 (.rejected ⟨"AbortError"⟩) (doSearch "batman" (doSearch "bat" init))
            = some (.ok s') ∧
      s'.trace = (doSearch "batman" (doSearch "bat" init)).trace ++ [.loading false] ∧
      s'.view.spinner = false ∧
      s'.inflight = [⟨1, "batman", 0⟩] ∧
      s'.aborted = [0] :=
  ⟨by decide, _, rfl, by decide, by decide, by decide, by decide⟩

/-- The continuation never reads the HTTP status: two responses with the same
body settle a request the same way. -/
theorem status_is_ignored (ctl st1 st2 : Nat) (b : Body) (s : State) :
    settle ctl (.response st1 b) s = settle ctl (.response st2 b) s := by
  cases b <;> simp [settle, resume, tryCatch, tryBlock, awaitFetchJson]

set_option maxRecDepth 100000 in
/-- C6: with the card of one movie on the page, `doSearch("superman")` is
answered with status 500 and the JSON body of an error report (an object
without `results`). The continuation never looks at the status: it calls
`renderResults([])`, which empties the list, and shows no notice. -/
theorem error_status_clears_list :
    ∃ s1 s2,
      settle 0 (.response 200 (.json ⟨some [batman]⟩)) (doSearch "batman" init) = some (.ok s1) ∧
      s1.view.results = [{ markup := cardMarkup batman, favTarget := batman }] ∧
      settle 1 (.response 500 (.json ⟨none⟩)) (doSearch "superman" s1) = some (.ok s2) ∧
      s2.view.results = [] ∧
      toasts s2.trace = [] ∧
      s2.view.toastShown = false ∧
      s2.trace = (doSearch "superman" s1).trace ++ [.render [], .loading false] :=
  ⟨_, _, rfl, by decide, rfl, by decide, by decide, by decide, by decide⟩

set_option maxRecDepth 100000 in
/-- C8, counterexample: the response to `doSearch("man")` carries three movies,
the second with the title `<!--`. Its markup opens a comment that swallows the
button, `card` throws inside the `try` block, and the handler shows the error
notice: the page ends with one card, not three, and a notice. -/
theorem unclosed_comment_breaks_render :
    plainMarkup (cardMarkup unclosed) = false ∧
    ∃ s', settle 0 (.response 200 (.json ⟨some [batman, unclosed, superman]⟩))
            (doSearch "man" init) = some (.ok s') ∧
      s'.view.results = [{ markup := cardMarkup batman, favTarget := batman }] ∧
      s'.view.results.length ≠ [batman, unclosed, superman].length ∧
      toasts s'.trace = ["Error buscando películas"] ∧
      s'.view.toastShown = true ∧
      s'.trace = (doSearch "man" init).trace
        ++ [.render [batman, unclosed, superman], .toast "Error buscando películas",
            .loading false] :=
  ⟨by decide, _, rfl, by decide, by decide, by decide, by decide, by decide⟩

/-- C4: the field receives "batman" (a debounce timer is armed for 350 ms), the
Search button is clicked 100 ms later, then time passes. The click starts a
lookup at once but leaves the timer pending, so `doSearch` runs a second time
at 350 ms and a second network call is issued. The Enter key in the same
situation clears the timer and `doSearch` runs once. -/
theorem click_leaves_timer_pending :
    (onClick (advance 100 (onInput "batman" init))).timers = [⟨0, 350, .search⟩] ∧
    searchCalls (advance 350 (onClick (advance 100 (onInput "batman" init)))).trace
      = [(100, "batman"), (350, "batman")] ∧
    fetchCalls (advance 350 (onClick (advance 100 (onInput "batman" init)))).trace
      = ["batman", "batman"] ∧
    (onKeydown "Enter" (advance 100 (onInput "batman" init))).timers = [] ∧
    searchCalls (advance 350 (onKeydown "Enter" (advance 100 (onInput "batman" init)))).trace
      = [(100, "batman")] := by
  decide

/-! ## Instances -/

theorem short_query_skips_network_witness :
    jsLength (jsTrim " b ") < 2 ∧
    (doSearch (jsTrim " b ") init).view.results = [] ∧
    (doSearch (jsTrim " b ") init).inflight = init.inflight ∧
    fetchCalls (doSearch (jsTrim " b ") init).trace = fetchCalls init.trace ∧
    (doSearch (jsTrim " b ") init).trace
      = init.trace ++ [.call init.now (jsTrim " b "), .render []] ∧
    (init.queryValue = " b " →
      (onClick init).view.results = [] ∧ (onClick init).inflight = init.inflight ∧
      fetchCalls (onClick init).trace = fetchCalls init.trace ∧
      (onKeydown "Enter" init).view.results = [] ∧
      (onKeydown "Enter" init).inflight = init.inflight ∧
      fetchCalls (onKeydown "Enter" init).trace = fetchCalls init.trace ∧
      (runTimer .search init).view.results = [] ∧
      (runTimer .search init).inflight = init.inflight ∧
      fetchCalls (runTimer .search init).trace = fetchCalls init.trace) :=
  ⟨by decide, short_query_skips_network init " b " (by decide)⟩

theorem init_timersOk : TimersOk init := (reachable_ok plainMarkup []).1

theorem last_request_wins_witness :
    2 ≤ jsLength (jsTrim "bat") ∧ 2 ≤ jsLength (jsTrim "batman") ∧
    (∀ c, init.searchAbort = some c → c < init.nextCtl) ∧
    (∀ c ∈ init.aborted, c < init.nextCtl) ∧
    ∃ sB sA sOnly,
      settle (init.nextCtl + 1) (.response 200 (.json ⟨some [batman]⟩))
        (doSearch (jsTrim "batman") (doSearch (jsTrim "bat") init)) = some (.ok sB) ∧
      settle init.nextCtl (.response 200 (.json ⟨some []⟩)) sB = some (.ok sA) ∧
      settle init.nextCtl (.response 200 (.json ⟨some [batman]⟩))
        (doSearch (jsTrim "batman") init) = some (.ok sOnly) ∧
      sA.trace = sB.trace ++ [.loading false] ∧
      sA.view = sB.view ∧
      sA.view = sOnly.view ∧
      toasts sA.trace = toasts sOnly.trace ∧
      renderCount sA.trace = renderCount sOnly.trace :=
  ⟨by decide, by decide, (fun c h => by cases h), (fun c h => by cases h),
   last_request_wins init "bat" "batman" (.response 200 (.json ⟨some []⟩))
     (.response 200 (.json ⟨some [batman]⟩)) (by decide) (by decide)
     (fun c h => by cases h) (fun c h => by cases h)⟩

theorem debounce_single_lookup_witness :
    TimersOk init ∧ (∀ p ∈ [(100, "batman")], p.1 < 350) ∧ 350 ≤ 350 ∧
    (burst "bat" [(100, "batman")] init).now = init.now + ([(100, "batman")].map Prod.fst).sum ∧
    (burst "bat" [(100, "batman")] init).queryValue = lastValue "bat" [(100, "batman")] ∧
    (∀ e, e < 350 →
      searchCalls (advance e (burst "bat" [(100, "batman")] init)).trace
        = searchCalls init.trace) ∧
    searchCalls (advance 350 (burst "bat" [(100, "batman")] init)).trace
      = searchCalls init.trace ++
          [((burst "bat" [(100, "batman")] init).now + 350,
            jsTrim (lastValue "bat" [(100, "batman")]))] ∧
    fetchCalls (advance 350 (burst "bat" [(100, "batman")] init)).trace
      = fetchCalls init.trace ++
          (if 2 ≤ jsLength (jsTrim (lastValue "bat" [(100, "batman")]))
            then [jsTrim (lastValue "bat" [(100, "batman")])] else []) ∧
    ∀ t ∈ (advance 350 (burst "bat" [(100, "batman")] init)).timers, t.action ≠ .search :=
  ⟨init_timersOk, by decide, by decide,
   debounce_single_lookup init "bat" [(100, "batman")] 350 init_timersOk (by decide) (by decide)⟩

set_option maxRecDepth 100000 in
/-- The scenario of the specification: "bat", then "batman" 100 ms later; one
lookup for "batman" at 450 ms; the response `{results: [Batman]}` renders one
card titled "Batman". -/
theorem batman_scenario :
    searchCalls (advance 350 (burst "bat" [(100, "batman")] init)).trace = [(450, "batman")] ∧
    fetchCalls (advance 350 (burst "bat" [(100, "batman")] init)).trace = ["batman"] ∧
    ∃ s', settle 0 (.response 200 (.json ⟨some [batman]⟩))
            (advance 350 (burst "bat" [(100, "batman")] init)) = some (.ok s') ∧
      s'.view.results =
        [{ markup :=
             "\n    <img class=\"poster\" src=\"https://image.tmdb.org/t/p/w342\" onerror=\"this.style.display=\x27none\x27\" alt=\"Poster\"/>\n    <div class=\"card-body\">\n      <div class=\"title\">Batman</div>\n      <div class=\"card-actions\">\n        <button class=\"btn btn-primary\" data-action=\"fav\">⭐ Añadir</button>\n      </div>\n    </div>",
           favTarget := batman }] ∧
      s'.view.spinner = false :=
  ⟨by decide, by decide, _, rfl, by decide, by decide⟩

theorem transport_failure_keeps_list_witness :
    (∃ r ∈ (doSearch "batman" init).inflight, r.ctl = 0) ∧
    0 ∉ (doSearch "batman" init).aborted ∧
    ((NetOutcome.rejected ⟨"TypeError"⟩ = .rejected ⟨"TypeError"⟩) ∨
      ∃ status, NetOutcome.rejected ⟨"TypeError"⟩ = .response status (.invalid ⟨"TypeError"⟩)) ∧
    (JsError.mk "TypeError").name ≠ "AbortError" ∧
    ∃ s', settle 0 (.rejected ⟨"TypeError"⟩) (doSearch "batman" init) = some (.ok s') ∧
      s'.view.results = (doSearch "batman" init).view.results ∧
      s'.view.resultsEmpty = (doSearch "batman" init).view.resultsEmpty ∧
      s'.trace = (doSearch "batman" init).trace
        ++ [.toast "Error buscando películas", .loading false] ∧
      toasts s'.trace = toasts (doSearch "batman" init).trace ++ ["Error buscando películas"] ∧
      renderCount s'.trace = renderCount (doSearch "batman" init).trace ∧
      s'.view.toastShown = true ∧
      s'.view.toastText = "Error buscando películas" ∧
      s'.view.spinner = false :=
  ⟨⟨⟨0, "batman", 0⟩, by decide, rfl⟩, by decide, Or.inl rfl, by decide,
   transport_failure_keeps_list (doSearch "batman" init) 0 (.rejected ⟨"TypeError"⟩)
     ⟨"TypeError"⟩ ⟨⟨0, "batman", 0⟩, by decide, rfl⟩ (by decide) (Or.inl rfl) (by decide)⟩

set_option maxRecDepth 100000 in
theorem success_replaces_list_witness :
    (∃ r ∈ (doSearch "batman" init).inflight, r.ctl = 0) ∧
    0 ∉ (doSearch "batman" init).aborted ∧
    (∀ m ∈ (Payload.mk (some [batman, superman])).results.getD [],
      (doSearch "batman" init).findsFav (cardMarkup m) = true) ∧
    ∃ s', settle 0 (.response 200 (.json ⟨some [batman, superman]⟩)) (doSearch "batman" init)
            = some (.ok s') ∧
      s'.view.results = ((Payload.mk (some [batman, superman])).results.getD []).map (fun m =>
        { markup :=
            "\n    <img class=\"poster\" src=\"https://image.tmdb.org/t/p/w342"
              ++ m.poster_path.getD ""
              ++ "\" onerror=\"this.style.display=\x27none\x27\" alt=\"Poster\"/>"
              ++ "\n    <div class=\"card-body\">"
              ++ "\n      <div class=\"title\">" ++ m.title ++ "</div>"
              ++ "\n      <div class=\"card-actions\">"
              ++ "\n        <button class=\"btn btn-primary\" data-action=\"fav\">⭐ Añadir</button>"
              ++ "\n      </div>"
              ++ "\n    </div>",
          favTarget := m }) ∧
      s'.view.resultsEmpty
        = (doSearch "batman" init).view.resultsEmpty.map
            (fun _ => decide ((Payload.mk (some [batman, superman])).results.getD [] = [])) ∧
      ((Payload.mk (some [batman, superman])).results = none → s'.view.results = []) ∧
      toasts s'.trace = toasts (doSearch "batman" init).trace ∧
      s'.view.toastShown = (doSearch "batman" init).view.toastShown ∧
      s'.view.toastText = (doSearch "batman" init).view.toastText ∧
      s'.view.spinner = false ∧
      s'.trace = (doSearch "batman" init).trace
        ++ [.render ((Payload.mk (some [batman, superman])).results.getD []), .loading false] :=
  ⟨⟨⟨0, "batman", 0⟩, by decide, rfl⟩, by decide, by decide,
   success_replaces_list (doSearch "batman" init) 0 200 ⟨some [batman, superman]⟩
     ⟨⟨0, "batman", 0⟩, by decide, rfl⟩ (by decide) (by decide)⟩

set_option maxRecDepth 100000 in
theorem abort_of_settled_is_noop_witness :
    2 ≤ jsLength "superman" ∧ settledOnce.searchAbort = some 0 ∧
    (∀ r ∈ settledOnce.inflight, r.ctl ≠ 0) ∧ 0 < settledOnce.nextCtl ∧
    (doSearch "superman" settledOnce).trace
      = settledOnce.trace ++ [.call settledOnce.now "superman", .abort 0, .loading true,
                              .fetch settledOnce.nextCtl "superman" settledOnce.now] ∧
    (doSearch "superman" settledOnce).view
      = (doSearch "superman" { settledOnce with searchAbort := none }).view ∧
    (doSearch "superman" settledOnce).view.results = settledOnce.view.results ∧
    (doSearch "superman" settledOnce).view.toastShown = settledOnce.view.toastShown ∧
    (doSearch "superman" settledOnce).view.toastText = settledOnce.view.toastText ∧
    (doSearch "superman" settledOnce).inflight
      = settledOnce.inflight ++ [⟨settledOnce.nextCtl, "superman", settledOnce.now⟩] ∧
    settle 0 (.response 200 (.json ⟨some [batman]⟩)) (doSearch "superman" settledOnce) = none :=
  ⟨by decide, by decide, by decide, by decide,
   abort_of_settled_is_noop settledOnce 0 "superman" (.response 200 (.json ⟨some [batman]⟩))
     (by decide) (by decide) (by decide) (by decide)⟩

set_option maxRecDepth 100000 in
theorem short_query_keeps_slot_witness :
    2 ≤ jsLength (jsTrim "batman") ∧ jsLength (jsTrim "b") < 2 ∧
    (Payload.mk (some [batman])).results.getD [] ≠ [] ∧
    (∀ m ∈ (Payload.mk (some [batman])).results.getD [],
      init.findsFav (cardMarkup m) = true) ∧
    init.searchAbort ≠ some init.nextCtl ∧ init.nextCtl ∉ init.aborted ∧
    (doSearch (jsTrim "b") init).searchAbort = init.searchAbort ∧
    (doSearch (jsTrim "b") init).aborted = init.aborted ∧
    (doSearch (jsTrim "b") init).inflight = init.inflight ∧
    (doSearch (jsTrim "b") (doSearch (jsTrim "batman") init)).view.results = [] ∧
    ∃ s', settle init.nextCtl (.response 200 (.json ⟨some [batman]⟩))
            (doSearch (jsTrim "b") (doSearch (jsTrim "batman") init)) = some (.ok s') ∧
      s'.view.results
        = ((Payload.mk (some [batman])).results.getD []).map
            (fun m => { markup := cardMarkup m, favTarget := m }) ∧
      s'.view.results ≠ [] :=
  ⟨by decide, by decide, by decide, by decide, by decide, by decide,
   short_query_keeps_slot init "batman" "b" 200 ⟨some [batman]⟩
     (by decide) (by decide) (by decide) (by decide) (by decide) (by decide)⟩

end MovieApp
